import Mathlib

/-!
Verification of the test-execution core of dapptools-rs against its
specification.  The two source files embedded here are
`dapp/src/multi_runner.rs` (the multi-contract test dispatcher) and
`evm-adapters/src/sputnik/evm.rs` (the Sputnik-backed EVM adapter).

Conventions of the embedding:
* machine bytes and byte strings are `Nat` / `List Nat`;
* Rust `HashMap`s become association lists (`List (key × value)`) with a
  first-match lookup; iteration order of a `HashMap` is unspecified in Rust,
  the list order stands in for one concrete order;
* external collaborators (the sputnik interpreter's `transact_call`, the
  keccak256 hash, the per-contract `ContractRunner::run_tests`) are taken as
  explicit function parameters: the spec declares the concrete interpreter
  out of scope, only its contract matters;
* a Rust panic (U256 underflow, `as_u64` overflow) is modelled as `Option.none`;
  a Rust `Result` is `Except String`.
-/

namespace DappTools

/-- Byte strings (`ethers::types::Bytes`, `Vec<u8>`). -/
abbrev Bytes := List Nat

/-- 20-byte account identifiers (`ethers::types::Address`), as byte lists. -/
abbrev Address := List Nat

/-- First-match association-list lookup, the embedding of `HashMap::get`. -/
def alookup {α β : Type} [DecidableEq α] (k : α) : List (α × β) → Option β
  | [] => none
  | (k', v) :: t => if k = k' then some v else alookup k t

/-- An ABI function descriptor: we carry the name (used by test discovery)
and the input parameter types. -/
structure AbiFunction where
  name : String
  inputs : List String
  deriving DecidableEq, Repr

/-- A contract ABI: an ordered collection of function descriptors. -/
structure Abi where
  functions : List AbiFunction
  deriving DecidableEq, Repr

/-- `ethers::utils::CompiledContract`: ABI, deployment bytecode and runtime
bytecode. -/
structure CompiledContract where
  abi : Abi
  bytecode : Bytes
  runtime_bytecode : Bytes
  deriving DecidableEq, Repr

/-- `sputnik::ExitSucceed`. -/
inductive ExitSucceed
  | stopped
  | returned
  | suicided
  deriving DecidableEq, Repr

/-- `sputnik::ExitError` (the variants relevant here). -/
inductive ExitError
  | outOfGas
  | outOfFund
  | stackUnderflow
  | stackOverflow
  | invalidJump
  | callTooDeep
  | createCollision
  | other (msg : String)
  deriving DecidableEq, Repr

/-- `sputnik::ExitRevert`. -/
inductive ExitRevert
  | reverted
  deriving DecidableEq, Repr

/-- `sputnik::ExitFatal`. -/
inductive ExitFatal
  | notSupported
  | unhandledInterrupt
  | callErrorAsFatal (e : ExitError)
  deriving DecidableEq, Repr

/-- `sputnik::ExitReason`, the adapter's `ReturnReason` type. -/
inductive ExitReason
  | succeed (s : ExitSucceed)
  | error (e : ExitError)
  | revert (r : ExitRevert)
  | fatal (f : ExitFatal)
  deriving DecidableEq, Repr

/-- `Executor::is_success`: `matches!(reason, ExitReason::Succeed(_))`. -/
def is_success : ExitReason → Bool
  | .succeed _ => true
  | _ => false

/-- `Executor::is_fail`: `matches!(reason, ExitReason::Revert(_))`. -/
def is_fail : ExitReason → Bool
  | .revert _ => true
  | _ => false

/-- `sputnik::backend::MemoryAccount`: nonce, balance, storage, code.
Storage is an association list of slot/value pairs. -/
structure MemoryAccount where
  nonce : Nat
  balance : Nat
  storage : List (Nat × Nat)
  code : Bytes
  deriving DecidableEq, Repr

/-- The empty account a fresh address resolves to. -/
def MemoryAccount.empty : MemoryAccount :=
  { nonce := 0, balance := 0, storage := [], code := [] }

/-- The adapter's account store `S` (`BTreeMap<Address, MemoryAccount>`),
as an association list; absent addresses resolve to the empty account. -/
abbrev MemoryState := List (Address × MemoryAccount)

/-- Resolve an address in the store (an absent account reads as empty). -/
def getAccount (s : MemoryState) (a : Address) : MemoryAccount :=
  (alookup a s).getD MemoryAccount.empty

/-- `StackState::set_code`: install `code` at address `a`, leaving the
account's nonce, balance and storage as they were. -/
def set_code (s : MemoryState) (a : Address) (code : Bytes) : MemoryState :=
  (a, { getAccount s a with code := code }) :: s

/-- `Executor::initialize_contracts`: for each `(address, bytecode)` pair of
the iterator, in order, install the bytecode at the address via `set_code`. -/
def initialize_contracts (s : MemoryState) (contracts : List (Address × Bytes)) :
    MemoryState :=
  contracts.foldl (fun st p => set_code st p.1 p.2) s

/-- The embedded `Executor<'a, S>`: the account store, the gasometer's
remaining gas (`gas_left()`), and the configured `gas_limit`. -/
structure Executor where
  state : MemoryState
  gasLeft : Nat
  gasLimit : Nat
  deriving DecidableEq, Repr

/-- What one `StackExecutor::transact_call` invocation produces: an exit
reason, return data, and the interpreter's updated account store and gas
counter.  The concrete interpreter is external to this repository (the spec
scopes it out; only its contract matters), so callers of `call_raw` below
pass it in as a function. -/
structure TransactOutcome where
  status : ExitReason
  retdata : Bytes
  newState : MemoryState
  newGasLeft : Nat
  deriving Repr

/-- The type of the external interpreter's `transact_call`: it receives the
executor (state and gas counter), caller, callee, value, calldata and the
gas limit argument. -/
abbrev TransactCall :=
  Executor → Address → Address → Nat → Bytes → Nat → TransactOutcome

/-- Modelled from the spec: `dapp_utils::remove_extra_costs` is not among
the provided sources.  Per the spec, gas accounting subtracts "the intrinsic
per-byte calldata cost" from the pre/post gas delta "so callers see only
execution gas".  The per-byte cost function is a parameter (the spec fixes
no constants).  The source computes the subtraction on `U256`, which panics
on underflow; the panic is modelled as `none`. -/
def calldataCost (perByteCost : Nat → Nat) (calldata : Bytes) : Nat :=
  (calldata.map perByteCost).sum

/-- Modelled from the spec: subtract the intrinsic calldata cost from the
gas delta (see `calldataCost`); `none` models the `U256` underflow panic. -/
def remove_extra_costs (perByteCost : Nat → Nat) (gas : Nat) (calldata : Bytes) :
    Option Nat :=
  if calldataCost perByteCost calldata ≤ gas then
    some (gas - calldataCost perByteCost calldata)
  else none

/-- `Executor::call_raw`, line by line:
`gas_before = gas_left()`; run `transact_call` with the stored `gas_limit`;
`gas_after = gas_left()`; `gas = remove_extra_costs(gas_before - gas_after,
calldata)`; return `Ok((retdata, status, gas.as_u64()))`.  The outer
`Option` models the panics of the two `U256` subtractions (underflow) and of
`as_u64` (value above `u64::MAX`); the Rust function body has no `Err` path,
so the inner `Except` is always `ok`. -/
def call_raw (tc : TransactCall) (perByteCost : Nat → Nat) (e : Executor)
    (sender target : Address) (calldata : Bytes) (value : Nat) (_is_static : Bool) :
    Option (Except String (Bytes × ExitReason × Nat) × Executor) :=
  let gas_before := e.gasLeft
  let out := tc e sender target value calldata e.gasLimit
  let e' : Executor := { e with state := out.newState, gasLeft := out.newGasLeft }
  let gas_after := e'.gasLeft
  if gas_after ≤ gas_before then
    match remove_extra_costs perByteCost (gas_before - gas_after) calldata with
    | none => none
    | some gas =>
      if gas < 2 ^ 64 then some (Except.ok (out.retdata, out.status, gas), e')
      else none
  else none

/-- `dapp::runner::TestResult`. -/
structure TestResult where
  success : Bool
  reason : Option String
  gas_used : Nat
  deriving DecidableEq, Repr

/-- Character-list comparison underlying `strStartsWith`. -/
def charsPre : List Char → List Char → Bool
  | [], _ => true
  | _ :: _, [] => false
  | c :: cs, d :: ds => if c = d then charsPre cs ds else false

/-- Rust's `str::starts_with`, via the character list (the library
`String.startsWith` does not reduce in the kernel). -/
def strStartsWith (s p : String) : Bool := charsPre p.data s.data

/-- The contract filter of `MultiContractRunner::test`:
`contract.abi.functions().any(|x| x.name.starts_with("test"))`. -/
def hasTestFunction (c : CompiledContract) : Bool :=
  c.abi.functions.any (fun f => strStartsWith f.name "test")

/-- The address derivation of `MultiContractRunnerBuilder::build`:
`Address::from_slice(&keccak256(&compiled.runtime_bytecode)[..20])`, the
first 20 bytes of the 32-byte hash.  `keccak256` lives in the external
`ethers` crate and is a parameter. -/
def deriveAddress (keccak256 : Bytes → Bytes) (runtime : Bytes) : Address :=
  (keccak256 runtime).take 20

/-- The embedded `MultiContractRunner<E, S>`: compiled contracts, the
name-to-address map, and the EVM adapter (the fuzzer is irrelevant to the
claims and omitted; `state` is a `PhantomData`). -/
structure MultiContractRunner where
  contracts : List (String × CompiledContract)
  addresses : List (String × Address)
  evm : Executor
  deriving Repr

/-- The (name → address) map `build` records:
`addresses.insert(name.clone(), addr)` for each contract. -/
def buildAddresses (keccak256 : Bytes → Bytes)
    (contracts : List (String × CompiledContract)) : List (String × Address) :=
  contracts.map (fun p => (p.1, deriveAddress keccak256 p.2.runtime_bytecode))

/-- The `init_state` iterator `build` feeds to `initialize_contracts`:
`(addr, compiled.runtime_bytecode.clone())` for each contract. -/
def buildInitState (keccak256 : Bytes → Bytes)
    (contracts : List (String × CompiledContract)) : List (Address × Bytes) :=
  contracts.map
    (fun p => (deriveAddress keccak256 p.2.runtime_bytecode, p.2.runtime_bytecode))

/-- `MultiContractRunnerBuilder::build` after the compile/load step: derive
an address per contract, record the (name → address) map, install every
runtime bytecode via `initialize_contracts`, and store everything. -/
def build (keccak256 : Bytes → Bytes)
    (contracts : List (String × CompiledContract)) (evm : Executor) :
    MultiContractRunner :=
  { contracts := contracts
    addresses := buildAddresses keccak256 contracts
    evm := { evm with
              state := initialize_contracts evm.state
                        (buildInitState keccak256 contracts) } }

/-- The type of the per-contract `ContractRunner::run_tests` (defined in
`dapp/src/runner.rs`, outside the provided sources): it receives the
adapter, the contract, its address and the pattern, and returns the mutated
adapter together with either a host error or a (function → TestResult)
map. -/
abbrev RunTests :=
  Executor → CompiledContract → Address → String →
    Executor × Except String (List (String × TestResult))

/-- The per-contract loop inside `MultiContractRunner::test`: for each
contract (in order), resolve its address — producing
`Err("could not find contract address")` without running anything when the
lookup fails — otherwise run its tests, threading the adapter through.  The
list of per-contract `Result`s mirrors the source's `tests.map(...)`. -/
def runContracts (rt : RunTests) (addresses : List (String × Address))
    (pattern : String) :
    Executor → List (String × CompiledContract) →
      Executor × List (Except String (String × List (String × TestResult)))
  | evm, [] => (evm, [])
  | evm, (name, c) :: rest =>
    match alookup name addresses with
    | none =>
      let pr := runContracts rt addresses pattern evm rest
      (pr.1, Except.error "could not find contract address" :: pr.2)
    | some addr =>
      let r := rt evm c addr pattern
      let pr := runContracts rt addresses pattern r.1 rest
      (pr.1, (r.2.map (fun res => (name, res))) :: pr.2)

/-- `MultiContractRunner::test`: take `contracts` and `addresses`, filter to
contracts with at least one `test`-prefixed ABI function, run each through
`runContracts`, then `.filter_map(|x| x.ok())` (dropping the `Err` entries)
and `.filter_map(...)` dropping contracts with an empty result map, collect,
restore the two taken collections, and return `Ok(results)`. -/
def MultiContractRunner.test (rt : RunTests) (mcr : MultiContractRunner)
    (pattern : String) :
    MultiContractRunner ×
      Except String (List (String × List (String × TestResult))) :=
  let contracts := mcr.contracts
  let tests := contracts.filter (fun p => hasTestFunction p.2)
  let addresses := mcr.addresses
  let pr := runContracts rt addresses pattern mcr.evm tests
  let results :=
    (pr.2.filterMap Except.toOption).filter (fun p => !p.2.isEmpty)
  ({ contracts := contracts, addresses := addresses, evm := pr.1 },
   Except.ok results)

/-! ### General lemmas about the embedding -/

/-- Unfolding lemma: `initialize_contracts` on a cons. -/
theorem initialize_contracts_cons (s : MemoryState) (p : Address × Bytes)
    (l : List (Address × Bytes)) :
    initialize_contracts s (p :: l) = initialize_contracts (set_code s p.1 p.2) l :=
  rfl

/-- Reading back the address just written by `set_code`. -/
theorem getAccount_set_code_self (s : MemoryState) (a : Address) (code : Bytes) :
    getAccount (set_code s a code) a = { getAccount s a with code := code } := by
  simp [set_code, getAccount, alookup]

/-- `set_code` leaves every other address untouched. -/
theorem getAccount_set_code_ne (s : MemoryState) (a a' : Address) (code : Bytes)
    (h : a ≠ a') : getAccount (set_code s a' code) a = getAccount s a := by
  simp [set_code, getAccount, alookup, h]

/-- `alookup` returns `none` exactly on the keys absent from the list. -/
theorem alookup_eq_none_iff {α β : Type} [DecidableEq α] (k : α)
    (l : List (α × β)) : alookup k l = none ↔ k ∉ l.map Prod.fst := by
  induction l with
  | nil => simp [alookup]
  | cons hd tl ih =>
    by_cases h : k = hd.1
    · subst h
      simp [alookup]
    · simpa [alookup, h] using ih

/-- Looking a key up in a keywise image of a list with distinct keys finds
the image of the unique entry with that key. -/
theorem alookup_map_of_nodup {α β γ : Type} [DecidableEq α] (f : α × β → γ)
    (l : List (α × β)) (k : α) (b : β)
    (hnodup : (l.map Prod.fst).Nodup) (hmem : (k, b) ∈ l) :
    alookup k (l.map (fun p => (p.1, f p))) = some (f (k, b)) := by
  induction l with
  | nil => cases hmem
  | cons hd tl ih =>
    rw [List.map_cons, List.nodup_cons] at hnodup
    rcases List.mem_cons.mp hmem with heq | htl
    · subst heq
      simp [alookup]
    · have hk : k ≠ hd.1 := fun hk =>
        hnodup.1 (List.mem_map.mpr ⟨(k, b), htl, hk⟩)
      simpa [alookup, hk] using ih hnodup.2 htl

/-! ### Claims C3, C9, C10: the Sputnik adapter's outcome classification,
determinism, and the shape of `call_raw` results -/

/-- Claim C3: every `call_raw` invocation that returns yields an `Ok` value
carrying the interpreter's exit reason unchanged — a contract revert is
therefore an `Ok` result, never an `Err` — a revert reason satisfies
`is_fail` and not `is_success`, and no `ExitReason` is both a success and a
fail: the adapter never conflates the two. -/
theorem call_raw_revert_is_ok_never_conflated :
    (∀ (tc : TransactCall) (pb : Nat → Nat) (e : Executor) (s t : Address)
        (cd : Bytes) (v : Nat) (st : Bool)
        (res : Except String (Bytes × ExitReason × Nat)) (e' : Executor),
        call_raw tc pb e s t cd v st = some (res, e') →
        ∃ gas, res = Except.ok ((tc e s t v cd e.gasLimit).retdata,
                                ((tc e s t v cd e.gasLimit).status, gas))) ∧
    (∀ rr : ExitRevert,
        is_fail (.revert rr) = true ∧ is_success (.revert rr) = false) ∧
    (∀ r : ExitReason, ¬(is_success r = true ∧ is_fail r = true)) := by
  refine ⟨?_, ?_, ?_⟩
  · intro tc pb e s t cd v st res e' h
    unfold call_raw at h
    simp only at h
    split at h
    · split at h
      · exact absurd h (by simp)
      · split at h
        · rename_i gas _ _
          have := (Option.some.injEq _ _).mp h
          exact ⟨gas, (congrArg Prod.fst this).symm⟩
        · exact absurd h (by simp)
    · exact absurd h (by simp)
  · intro rr
    exact ⟨rfl, rfl⟩
  · intro r hr
    cases r <;> simp [is_success, is_fail] at hr

/-- Claim C3 witness: a concrete reverting interpreter run through
`call_raw` at a concrete executor. -/
theorem call_raw_revert_is_ok_never_conflated_witness :
    call_raw (fun e _ _ _ _ _ => ⟨.revert .reverted, [1], e.state, 40⟩)
        (fun b => if b = 0 then 4 else 16)
        ⟨[], 100, 100⟩ [] [] [0, 1] 0 false =
      some (Except.ok ([1], (.revert .reverted, 40)), ⟨[], 40, 100⟩) ∧
    (∃ gas, (Except.ok ([1], (ExitReason.revert .reverted, 40)) :
          Except String (Bytes × ExitReason × Nat)) =
        Except.ok ([1], (ExitReason.revert .reverted, gas))) := by
  constructor
  · rfl
  · exact call_raw_revert_is_ok_never_conflated.1
      (fun e _ _ _ _ _ => ⟨.revert .reverted, [1], e.state, 40⟩)
      (fun b => if b = 0 then 4 else 16)
      ⟨[], 100, 100⟩ [] [] [0, 1] 0 false _ _ rfl

/-- Claim C9: `call_raw` is deterministic — two executors with equal state
(account store, gas counter, gas limit) and identical inputs produce equal
results. -/
theorem call_raw_deterministic (tc : TransactCall) (pb : Nat → Nat)
    (e₁ e₂ : Executor) (s t : Address) (cd : Bytes) (v : Nat) (st : Bool)
    (hstate : e₁.state = e₂.state) (hgas : e₁.gasLeft = e₂.gasLeft)
    (hlim : e₁.gasLimit = e₂.gasLimit) :
    call_raw tc pb e₁ s t cd v st = call_raw tc pb e₂ s t cd v st := by
  have h : e₁ = e₂ := by
    cases e₁
    cases e₂
    simp_all
  rw [h]

/-- Claim C9 witness: determinism applied at two concrete equal executors. -/
theorem call_raw_deterministic_witness :
    (Executor.mk [] 7 9).state = (Executor.mk [] 7 9).state ∧
    call_raw (fun e _ _ _ _ _ => ⟨.succeed .stopped, [], e.state, 0⟩)
        (fun _ => 1) (Executor.mk [] 7 9) [] [] [] 0 false =
      call_raw (fun e _ _ _ _ _ => ⟨.succeed .stopped, [], e.state, 0⟩)
        (fun _ => 1) (Executor.mk [] 7 9) [] [] [] 0 false :=
  ⟨rfl, call_raw_deterministic
    (fun e _ _ _ _ _ => ⟨.succeed .stopped, [], e.state, 0⟩)
    (fun _ => 1) (Executor.mk [] 7 9) (Executor.mk [] 7 9) [] [] [] 0 false
    rfl rfl rfl⟩

/-- Claim C10: `is_success` and `is_fail` do not partition the call
outcomes — an out-of-gas `ExitReason.error` is classified as neither a pass
nor a revert. -/
theorem exists_reason_neither_success_nor_fail :
    ∃ r : ExitReason, is_success r = false ∧ is_fail r = false :=
  ⟨.error .outOfGas, rfl, rfl⟩

/-- Claim C6: `MultiContractRunner::test` restores the taken collections —
after the call, the runner's `contracts` and `addresses` fields hold
exactly the maps they held before. -/
theorem test_restores_contracts_and_addresses (rt : RunTests)
    (mcr : MultiContractRunner) (pattern : String) :
    (MultiContractRunner.test rt mcr pattern).1.contracts = mcr.contracts ∧
    (MultiContractRunner.test rt mcr pattern).1.addresses = mcr.addresses :=
  ⟨rfl, rfl⟩

/-- Aside from the code field, `set_code` preserves every account (also the
one written to). -/
theorem set_code_preserves_non_code (s : MemoryState) (a a' : Address)
    (code : Bytes) :
    (getAccount (set_code s a' code) a).nonce = (getAccount s a).nonce ∧
    (getAccount (set_code s a' code) a).balance = (getAccount s a).balance ∧
    (getAccount (set_code s a' code) a).storage = (getAccount s a).storage := by
  by_cases h : a = a'
  · subst h
    rw [getAccount_set_code_self]
    exact ⟨rfl, rfl, rfl⟩
  · rw [getAccount_set_code_ne s a a' code h]
    exact ⟨rfl, rfl, rfl⟩

/-- Addresses not named by the pair list are untouched by
`initialize_contracts`. -/
theorem initialize_contracts_not_mem (l : List (Address × Bytes)) :
    ∀ (s : MemoryState) (a : Address), a ∉ l.map Prod.fst →
      getAccount (initialize_contracts s l) a = getAccount s a := by
  induction l with
  | nil => intro s a _; rfl
  | cons hd tl ih =>
    intro s a ha
    rw [List.map_cons] at ha
    have h1 : a ≠ hd.1 := fun h => ha (List.mem_cons.mpr (Or.inl h))
    have h2 : a ∉ tl.map Prod.fst := fun h => ha (List.mem_cons.mpr (Or.inr h))
    rw [initialize_contracts_cons, ih (set_code s hd.1 hd.2) a h2,
      getAccount_set_code_ne s a hd.1 hd.2 h1]

/-- `initialize_contracts` never changes a nonce, balance or storage slot. -/
theorem initialize_contracts_preserves_non_code (l : List (Address × Bytes)) :
    ∀ (s : MemoryState) (a : Address),
      (getAccount (initialize_contracts s l) a).nonce = (getAccount s a).nonce ∧
      (getAccount (initialize_contracts s l) a).balance =
        (getAccount s a).balance ∧
      (getAccount (initialize_contracts s l) a).storage =
        (getAccount s a).storage := by
  induction l with
  | nil => intro s a; exact ⟨rfl, rfl, rfl⟩
  | cons hd tl ih =>
    intro s a
    rw [initialize_contracts_cons]
    obtain ⟨h1, h2, h3⟩ := ih (set_code s hd.1 hd.2) a
    obtain ⟨g1, g2, g3⟩ := set_code_preserves_non_code s a hd.1 hd.2
    exact ⟨h1.trans g1, h2.trans g2, h3.trans g3⟩

/-- With distinct addresses, `initialize_contracts` installs each listed
bytecode at its listed address. -/
theorem initialize_contracts_code_of_mem (l : List (Address × Bytes)) :
    ∀ (s : MemoryState) (a : Address) (b : Bytes),
      (l.map Prod.fst).Nodup → (a, b) ∈ l →
      (getAccount (initialize_contracts s l) a).code = b := by
  induction l with
  | nil => intro s a b _ hmem; cases hmem
  | cons hd tl ih =>
    intro s a b hnodup hmem
    rw [List.map_cons, List.nodup_cons] at hnodup
    rw [initialize_contracts_cons]
    rcases List.mem_cons.mp hmem with heq | htl
    · subst heq
      have hnot : a ∉ tl.map Prod.fst := hnodup.1
      rw [initialize_contracts_not_mem tl (set_code s a b) a hnot,
        getAccount_set_code_self]
    · exact ih (set_code s hd.1 hd.2) a b hnodup.2 htl

/-- Claim C7: after `initialize_contracts` over a list of distinct
addresses, each listed address resolves to its listed bytecode; accounts at
all other addresses are unchanged; and no balance, nonce or storage of any
account changes. -/
theorem initialize_contracts_frame (s : MemoryState)
    (l : List (Address × Bytes)) (hnodup : (l.map Prod.fst).Nodup) :
    (∀ a b, (a, b) ∈ l →
      (getAccount (initialize_contracts s l) a).code = b) ∧
    (∀ a, a ∉ l.map Prod.fst →
      getAccount (initialize_contracts s l) a = getAccount s a) ∧
    (∀ a,
      (getAccount (initialize_contracts s l) a).nonce = (getAccount s a).nonce ∧
      (getAccount (initialize_contracts s l) a).balance =
        (getAccount s a).balance ∧
      (getAccount (initialize_contracts s l) a).storage =
        (getAccount s a).storage) :=
  ⟨fun a b hmem => initialize_contracts_code_of_mem l s a b hnodup hmem,
   fun a ha => initialize_contracts_not_mem l s a ha,
   fun a => initialize_contracts_preserves_non_code l s a⟩

/-- Claim C7 witness: two concrete contracts installed into a one-account
store; the listed codes land, the third address keeps its account, and the
pre-existing balance survives. -/
theorem initialize_contracts_frame_witness :
    ([[1], [2]].Nodup ∧
      (getAccount (initialize_contracts [([9], ⟨3, 77, [], [5]⟩)]
          [([1], [10, 11]), ([2], [12])]) [1]).code = [10, 11] ∧
      (getAccount (initialize_contracts [([9], ⟨3, 77, [], [5]⟩)]
          [([1], [10, 11]), ([2], [12])]) [9]).balance = 77) := by
  have h := initialize_contracts_frame [([9], ⟨3, 77, [], [5]⟩)]
    [([1], [10, 11]), ([2], [12])] (by decide)
  refine ⟨by decide, h.1 [1] [10, 11] (by decide), ?_⟩
  rw [(h.2.2 [9]).2.1]
  decide

/-- A stand-in 32-byte hash function used by concrete witnesses (the claims
hold for every hash function; `keccak256` itself lives in the external
`ethers` crate). -/
def wkeccak (b : Bytes) : Bytes :=
  (List.range 32).map (fun i => (b.length + 7 * i) % 256)

/-- A concrete compiled contract with one `test`-prefixed ABI function. -/
def wContract : CompiledContract :=
  { abi := { functions := [{ name := "testFoo", inputs := [] }] }
    bytecode := [0]
    runtime_bytecode := [1, 2] }

/-- A concrete executor for witnesses. -/
def wEvm : Executor := { state := [], gasLeft := 100, gasLimit := 100 }

/-- Claim C2: for every contract processed by
`MultiContractRunnerBuilder::build` (contract names are `HashMap` keys,
hence distinct), the recorded address is the first 20 bytes of
keccak256 of its runtime bytecode, the pair (derived address, runtime
bytecode) is submitted to `initialize_contracts`, and — when the derived
addresses are distinct — the runtime bytecode is installed at that
address. -/
theorem build_address_derivation (keccak256 : Bytes → Bytes)
    (contracts : List (String × CompiledContract)) (evm : Executor)
    (name : String) (c : CompiledContract)
    (hnodup : (contracts.map Prod.fst).Nodup)
    (hmem : (name, c) ∈ contracts) :
    alookup name (build keccak256 contracts evm).addresses =
      some ((keccak256 c.runtime_bytecode).take 20) ∧
    ((keccak256 c.runtime_bytecode).take 20, c.runtime_bytecode) ∈
      buildInitState keccak256 contracts ∧
    (((buildInitState keccak256 contracts).map Prod.fst).Nodup →
      (getAccount (build keccak256 contracts evm).evm.state
          ((keccak256 c.runtime_bytecode).take 20)).code =
        c.runtime_bytecode) := by
  have hmemInit : ((keccak256 c.runtime_bytecode).take 20, c.runtime_bytecode) ∈
      buildInitState keccak256 contracts :=
    List.mem_map.mpr ⟨(name, c), hmem, rfl⟩
  refine ⟨?_, hmemInit, ?_⟩
  · exact alookup_map_of_nodup
      (fun p => deriveAddress keccak256 p.2.runtime_bytecode)
      contracts name c hnodup hmem
  · intro hnd
    exact initialize_contracts_code_of_mem (buildInitState keccak256 contracts)
      evm.state ((keccak256 c.runtime_bytecode).take 20) c.runtime_bytecode
      hnd hmemInit

/-- Claim C2 witness: one concrete contract run through `build`; its
recorded address is the 20-byte hash truncation and its runtime bytecode is
installed there. -/
theorem build_address_derivation_witness :
    alookup "A" (build wkeccak [("A", wContract)] wEvm).addresses =
      some ((wkeccak wContract.runtime_bytecode).take 20) ∧
    (getAccount (build wkeccak [("A", wContract)] wEvm).evm.state
        ((wkeccak wContract.runtime_bytecode).take 20)).code =
      wContract.runtime_bytecode := by
  have h := build_address_derivation wkeccak [("A", wContract)] wEvm "A"
    wContract (by decide) (by decide)
  exact ⟨h.1, h.2.2 (by decide)⟩

/-- A concrete interpreter for witnesses: it succeeds, returns no data and
consumes 50 gas. -/
def wTransact : TransactCall :=
  fun e _ _ _ _ _ => ⟨.succeed .stopped, [], e.state, e.gasLeft - 50⟩

/-- A concrete per-byte calldata cost (the post-Istanbul schedule: 4 for a
zero byte, 16 otherwise) for witnesses. -/
def wPerByte : Nat → Nat := fun b => if b = 0 then 4 else 16

/-- Claim C4: whenever `call_raw` returns, the reported `gas_used` equals
the pre/post gas-counter delta minus the intrinsic per-byte calldata cost
of the supplied calldata. -/
theorem call_raw_gas_is_delta_minus_intrinsic (tc : TransactCall)
    (pb : Nat → Nat) (e : Executor) (s t : Address) (cd : Bytes) (v : Nat)
    (st : Bool) (ret : Bytes) (reason : ExitReason) (gas : Nat) (e' : Executor)
    (h : call_raw tc pb e s t cd v st =
      some (Except.ok (ret, reason, gas), e')) :
    gas = (e.gasLeft - e'.gasLeft) - calldataCost pb cd := by
  unfold call_raw at h
  simp only at h
  split at h
  · split at h
    · exact absurd h (by simp)
    · rename_i g heq
      split at h
      · simp only [Option.some.injEq, Prod.mk.injEq, Except.ok.injEq] at h
        obtain ⟨⟨-, -, hgas⟩, he⟩ := h
        subst hgas
        subst he
        unfold remove_extra_costs at heq
        split at heq
        · exact ((Option.some.injEq _ _).mp heq).symm
        · exact absurd heq (by simp)
      · exact absurd h (by simp)
  · exact absurd h (by simp)

/-- Claim C4 witness: a concrete call burning 50 gas on 2 calldata bytes
costing 20; the reported gas is 30 = (100 - 50) - 20. -/
theorem call_raw_gas_is_delta_minus_intrinsic_witness :
    call_raw wTransact wPerByte ⟨[], 100, 100⟩ [] [] [0, 1] 0 false =
      some (Except.ok ([], ExitReason.succeed .stopped, 30), ⟨[], 50, 100⟩) ∧
    (30 : Nat) =
      ((⟨[], 100, 100⟩ : Executor).gasLeft -
        (⟨[], 50, 100⟩ : Executor).gasLeft) - calldataCost wPerByte [0, 1] :=
  ⟨rfl,
   call_raw_gas_is_delta_minus_intrinsic wTransact wPerByte ⟨[], 100, 100⟩
     [] [] [0, 1] 0 false [] (ExitReason.succeed .stopped) 30 ⟨[], 50, 100⟩
     rfl⟩

/-- Claim C8: whenever `call_raw` returns (so none of the modelled `U256`
panics fired), the reported gas is non-negative (`Nat`), at most the
configured gas limit (given the gasometer invariant `gas_left ≤ gas_limit`),
both subtractions were underflow-free, and the value fits in a `u64`. -/
theorem call_raw_gas_bounded (tc : TransactCall) (pb : Nat → Nat)
    (e : Executor) (s t : Address) (cd : Bytes) (v : Nat) (st : Bool)
    (ret : Bytes) (reason : ExitReason) (gas : Nat) (e' : Executor)
    (hinv : e.gasLeft ≤ e.gasLimit)
    (h : call_raw tc pb e s t cd v st =
      some (Except.ok (ret, reason, gas), e')) :
    gas ≤ e.gasLimit ∧ e'.gasLeft ≤ e.gasLeft ∧
    calldataCost pb cd ≤ e.gasLeft - e'.gasLeft ∧ gas < 2 ^ 64 := by
  unfold call_raw at h
  simp only at h
  split at h
  · rename_i hle
    split at h
    · exact absurd h (by simp)
    · rename_i g heq
      split at h
      · rename_i hlt
        simp only [Option.some.injEq, Prod.mk.injEq, Except.ok.injEq] at h
        obtain ⟨⟨-, -, hgas⟩, he⟩ := h
        subst hgas
        subst he
        unfold remove_extra_costs at heq
        split at heq
        · rename_i hcost
          have hg := (Option.some.injEq _ _).mp heq
          refine ⟨?_, hle, hcost, hlt⟩
          omega
        · exact absurd heq (by simp)
      · exact absurd h (by simp)
  · exact absurd h (by simp)

/-- Claim C8 witness: the bounds at the concrete call of the C4 witness,
with the gasometer invariant 100 ≤ 100 discharged. -/
theorem call_raw_gas_bounded_witness :
    (30 : Nat) ≤ (⟨[], 100, 100⟩ : Executor).gasLimit ∧
    (⟨[], 50, 100⟩ : Executor).gasLeft ≤ (⟨[], 100, 100⟩ : Executor).gasLeft ∧
    calldataCost wPerByte [0, 1] ≤
      (⟨[], 100, 100⟩ : Executor).gasLeft -
        (⟨[], 50, 100⟩ : Executor).gasLeft ∧
    (30 : Nat) < 2 ^ 64 :=
  call_raw_gas_bounded wTransact wPerByte ⟨[], 100, 100⟩ [] [] [0, 1] 0 false
    [] (ExitReason.succeed .stopped) 30 ⟨[], 50, 100⟩ (by decide) rfl

/-- Every `Ok` entry the per-contract loop emits is keyed by a contract of
the input list. -/
theorem runContracts_ok_mem (rt : RunTests) (addresses : List (String × Address))
    (pattern : String) (l : List (String × CompiledContract)) :
    ∀ (evm : Executor) (name : String) (res : List (String × TestResult)),
      Except.ok (name, res) ∈ (runContracts rt addresses pattern evm l).2 →
      ∃ c, (name, c) ∈ l := by
  induction l with
  | nil =>
    intro evm name res h
    simp [runContracts] at h
  | cons hd tl ih =>
    obtain ⟨n, c⟩ := hd
    intro evm name res h
    cases halook : alookup n addresses with
    | none =>
      simp only [runContracts, halook] at h
      rcases List.mem_cons.mp h with heq | htl
      · cases heq
      · obtain ⟨c', hc'⟩ := ih _ name res htl
        exact ⟨c', List.mem_cons.mpr (Or.inr hc')⟩
    | some addr =>
      simp only [runContracts, halook] at h
      rcases List.mem_cons.mp h with heq | htl
      · cases hr : (rt evm c addr pattern).2 with
        | error e => rw [hr] at heq; cases heq
        | ok v =>
          rw [hr] at heq
          have : (n, v) = (name, res) := by
            simpa [Except.map] using heq.symm
          exact ⟨c, by rw [← (Prod.mk.injEq _ _ _ _).mp this |>.1]; exact
            List.mem_cons.mpr (Or.inl rfl)⟩
      · obtain ⟨c', hc'⟩ := ih _ name res htl
        exact ⟨c', List.mem_cons.mpr (Or.inr hc')⟩

/-- Every `Ok` entry the per-contract loop emits is keyed by a name whose
address lookup succeeded. -/
theorem runContracts_ok_addr_found (rt : RunTests)
    (addresses : List (String × Address)) (pattern : String)
    (l : List (String × CompiledContract)) :
    ∀ (evm : Executor) (name : String) (res : List (String × TestResult)),
      Except.ok (name, res) ∈ (runContracts rt addresses pattern evm l).2 →
      alookup name addresses ≠ none := by
  induction l with
  | nil =>
    intro evm name res h
    simp [runContracts] at h
  | cons hd tl ih =>
    obtain ⟨n, c⟩ := hd
    intro evm name res h
    cases halook : alookup n addresses with
    | none =>
      simp only [runContracts, halook] at h
      rcases List.mem_cons.mp h with heq | htl
      · cases heq
      · exact ih _ name res htl
    | some addr =>
      simp only [runContracts, halook] at h
      rcases List.mem_cons.mp h with heq | htl
      · cases hr : (rt evm c addr pattern).2 with
        | error e => rw [hr] at heq; cases heq
        | ok v =>
          rw [hr] at heq
          have : (n, v) = (name, res) := by
            simpa [Except.map] using heq.symm
          rw [← (Prod.mk.injEq _ _ _ _).mp this |>.1, halook]
          exact fun hc => Option.noConfusion hc
      · exact ih _ name res htl

/-- The per-contract loop never short-circuits: it emits one entry (`Ok` or
`Err`) per input contract, whatever the per-contract outcomes are. -/
theorem runContracts_length (rt : RunTests)
    (addresses : List (String × Address)) (pattern : String)
    (l : List (String × CompiledContract)) :
    ∀ evm : Executor,
      (runContracts rt addresses pattern evm l).2.length = l.length := by
  induction l with
  | nil => intro evm; rfl
  | cons hd tl ih =>
    obtain ⟨n, c⟩ := hd
    intro evm
    cases halook : alookup n addresses with
    | none => simp [runContracts, halook, ih]
    | some addr => simp [runContracts, halook, ih]

/-- Claim C5: the map `MultiContractRunner::test` returns has entries only
for contracts owning at least one `test`-prefixed ABI function, and every
per-contract result map it contains is non-empty. -/
theorem test_results_only_test_contracts_nonempty (rt : RunTests)
    (mcr : MultiContractRunner) (pattern : String)
    (rs : List (String × List (String × TestResult)))
    (hok : (MultiContractRunner.test rt mcr pattern).2 = Except.ok rs)
    (name : String) (res : List (String × TestResult))
    (hmem : (name, res) ∈ rs) :
    (∃ c, (name, c) ∈ mcr.contracts ∧ hasTestFunction c = true) ∧
    res ≠ [] := by
  have hrs := Except.ok.inj hok
  rw [← hrs] at hmem
  obtain ⟨hmem', hne⟩ := List.mem_filter.mp hmem
  obtain ⟨x, hx, hxo⟩ := List.mem_filterMap.mp hmem'
  have hxok : x = Except.ok (name, res) := by
    cases x with
    | error e => simp [Except.toOption] at hxo
    | ok v => exact congrArg Except.ok ((Option.some.injEq _ _).mp hxo)
  rw [hxok] at hx
  obtain ⟨c, hc⟩ := runContracts_ok_mem rt mcr.addresses pattern _ _ name res hx
  obtain ⟨hcmem, hctest⟩ := List.mem_filter.mp hc
  refine ⟨⟨c, hcmem, hctest⟩, ?_⟩
  intro hnil
  rw [hnil] at hne
  simp at hne

/-- A concrete per-contract runner for witnesses: it returns one passing
test result and leaves the adapter alone. -/
def wRunTests : RunTests :=
  fun evm _ _ _ => (evm, Except.ok [("testFoo", ⟨true, none, 0⟩)])

/-- A concrete multi-contract runner holding one test contract with its
address recorded. -/
def wMcr : MultiContractRunner :=
  { contracts := [("A", wContract)]
    addresses := [("A", [1])]
    evm := wEvm }

/-- Claim C5 witness: the concrete runner's single contract does appear in
the returned map, with a non-empty result set and a `test`-prefixed
function. -/
theorem test_results_only_test_contracts_nonempty_witness :
    (MultiContractRunner.test wRunTests wMcr ".*").2 =
      Except.ok [("A", [("testFoo", ⟨true, none, 0⟩)])] ∧
    ((∃ c, ("A", c) ∈ wMcr.contracts ∧ hasTestFunction c = true) ∧
      [("testFoo", (⟨true, none, 0⟩ : TestResult))] ≠ []) :=
  ⟨rfl,
   test_results_only_test_contracts_nonempty wRunTests wMcr ".*"
     [("A", [("testFoo", ⟨true, none, 0⟩)])] rfl "A"
     [("testFoo", ⟨true, none, 0⟩)] (by decide)⟩

/-- A concrete multi-contract runner whose only contract has no recorded
address (an empty address map). -/
def wMcrNoAddr : MultiContractRunner :=
  { contracts := [("A", wContract)]
    addresses := []
    evm := wEvm }

/-- Claim C1 counterexample: a runner holding a test contract whose address
lookup fails.  `MultiContractRunner::test` does not short-circuit with the
MissingAddress-style error — the `.filter_map(|x| x.ok())` on line 136 of
`multi_runner.rs` silently drops it and the call returns `Ok` (here with an
empty map). -/
theorem test_missing_address_not_propagated :
    hasTestFunction wContract = true ∧
    alookup "A" wMcrNoAddr.addresses = none ∧
    (MultiContractRunner.test wRunTests wMcrNoAddr ".*").2 =
      Except.ok [] :=
  ⟨rfl, rfl, rfl⟩

/-- Claim C1 (amended): `MultiContractRunner::test` never returns an error:
a failed address resolution, or a host error from the per-contract run, is
silently dropped — that contract simply has no entry in the returned map —
while the iteration still visits every filtered contract, so neither a host
error nor an individual failing TestResult ever halts the batch. -/
theorem test_never_errs_drops_failed_contracts (rt : RunTests)
    (mcr : MultiContractRunner) (pattern : String) :
    (∃ rs, (MultiContractRunner.test rt mcr pattern).2 = Except.ok rs) ∧
    (∀ rs, (MultiContractRunner.test rt mcr pattern).2 = Except.ok rs →
      ∀ name, alookup name mcr.addresses = none → alookup name rs = none) ∧
    (runContracts rt mcr.addresses pattern mcr.evm
        (mcr.contracts.filter fun p => hasTestFunction p.2)).2.length =
      (mcr.contracts.filter fun p => hasTestFunction p.2).length := by
  refine ⟨⟨_, rfl⟩, ?_, runContracts_length rt mcr.addresses pattern _ mcr.evm⟩
  intro rs hok name hnone
  have hrs := Except.ok.inj hok
  rw [← hrs]
  rw [alookup_eq_none_iff]
  intro hmemkeys
  obtain ⟨⟨n', res⟩, hp, hfst⟩ := List.mem_map.mp hmemkeys
  simp only at hfst
  rw [hfst] at hp
  obtain ⟨hmem', -⟩ := List.mem_filter.mp hp
  obtain ⟨x, hx, hxo⟩ := List.mem_filterMap.mp hmem'
  have hxok : x = Except.ok (name, res) := by
    cases x with
    | error e => simp [Except.toOption] at hxo
    | ok v => exact congrArg Except.ok ((Option.some.injEq _ _).mp hxo)
  rw [hxok] at hx
  exact runContracts_ok_addr_found rt mcr.addresses pattern _ mcr.evm name res
    hx hnone

/-- Claim C1 (amended) witness: the concrete runner with the missing
address; `test` returns `Ok`, the contract is absent from the (empty)
result map, and the loop still produced one entry for the one filtered
contract. -/
theorem test_never_errs_drops_failed_contracts_witness :
    alookup "A" wMcrNoAddr.addresses = none ∧
    alookup "A" ([] : List (String × List (String × TestResult))) = none ∧
    (runContracts wRunTests wMcrNoAddr.addresses ".*" wMcrNoAddr.evm
        (wMcrNoAddr.contracts.filter fun p => hasTestFunction p.2)).2.length =
      (wMcrNoAddr.contracts.filter fun p => hasTestFunction p.2).length := by
  have h := test_never_errs_drops_failed_contracts wRunTests wMcrNoAddr ".*"
  exact ⟨rfl, h.2.1 [] rfl "A" rfl, h.2.2⟩

end DappTools
